import Mathlib

/-!
Allocators of `alloc.cpp`.

A shallow embedding of the three allocator templates of `src/alloc.cpp`
(`heap_allocator`, `stack_allocator`, `fallback_allocator`) and the properties
of the arena's list algorithm.

Representation:

* `std::size_t` is a natural number below `size_modulus = 2 ^ 64`; every
  `size_t` operation of the source is written with its reduction modulo
  `2 ^ 64` where it can wrap.
* A pointer into `buffer_` is its byte offset from the start of `buffer_`;
  a pointer result is an `Option Nat`, `none` being `nullptr`.
* The chain `head_, head_->next, head_->next->next, ...` is a `List` of
  `block_header`s in chain order.  A list element records where the header lives
  (`addr`), and its `data` and `size` fields; the `next` field of the source is
  the `addr` of the following list element (`nullptr` for the last one).
-/

namespace Alloc

/-- The number of values of `std::size_t` (LP64). -/
def size_modulus : Nat := 2 ^ 64

/-- The value of `sizeof(block_header)`: a pointer, a `size_t` and a pointer. -/
def sizeof_block_header : Nat := 24

/-- One `block_header` of the chain: the header stored at offset `addr` of
`buffer_`, with its fields `data` and `size`. -/
structure block_header where
  addr : Nat
  data : Nat
  size : Nat
  deriving DecidableEq, Repr

/-- The state of a `stack_allocator`: the chain of headers starting at `head_`. -/
abbrev chain := List block_header

/-- The `next` field of the first header of a chain: the address of the header
that follows it, `none` for `nullptr`. -/
def next_ptr : chain → Option Nat
  | _ :: n :: _ => some n.addr
  | _ => none

/-- The expression `(size + 7) &~7` on `size_t`: `~7` is the `int` `-8`, converted
to `size_t` as `2 ^ 64 - 8`. -/
def align8 (size : Nat) : Nat :=
  ((size + 7) % size_modulus) &&& (size_modulus - 8)

/-- The working size of `allocate(count)` for `sizeof(value_type) = e`
(lines 74-77). -/
def request_size (e count : Nat) : Nat :=
  align8 ((count * e) % size_modulus)

namespace stack_allocator

/-- The default constructor (lines 61-66): one header at the start of `buffer_`,
its data right after it, its size `Capacity - sizeof(block_header)` in `size_t`
arithmetic. -/
def ctor (Capacity : Nat) : chain :=
  [{ addr := 0,
     data := sizeof_block_header,
     size := (Capacity + size_modulus - sizeof_block_header) % size_modulus }]

/-- Lines 79-107 of `allocate`, on the working size: walk the chain to the first
header with `size` not below the request, split it when the rest can host a
header and 8 bytes, and return its `data`.  The loop `while (block != nullptr &&
block->size < size)` is the recursion on the chain; running off the chain is
`return nullptr`.  The subtractions are those of `size_t`: they are evaluated
only where `size ≤ block.size`, and `block.size - size - sizeof(block_header)`
only where `block.size - size ≥ sizeof(block_header) + 8`, so none wraps. -/
def allocate_size (size : Nat) : chain → Option Nat × chain
  | [] => (none, [])
  | block :: rest =>
    if block.size < size then
      let r := allocate_size size rest
      (r.1, block :: r.2)
    else if block.size - size ≥ sizeof_block_header + 8 then
      let next : block_header :=
        { addr := block.data + size,
          data := block.data + size + sizeof_block_header,
          size := block.size - size - sizeof_block_header }
      (some block.data, { block with size := size } :: next :: rest)
    else
      (some block.data, block :: rest)

/-- The member `allocate(count)` of `stack_allocator<T, Capacity>` with
`sizeof(T) = e`: the returned pointer and the state after the call. -/
def allocate (e : Nat) (st : chain) (count : Nat) : Option Nat × chain :=
  allocate_size (request_size e count) st

/-- The member `deallocate(ptr, count)` (lines 110-113): an empty body. -/
def deallocate (st : chain) (_ptr : Option Nat) (_count : Nat) : chain := st

/-- The member `max_size()` (lines 115-118) of `stack_allocator<T, Capacity>` with
`sizeof(T) = e`, called on an allocator in state `_st`. -/
def max_size (Capacity e : Nat) (_st : chain) : Nat := Capacity / e

end stack_allocator

/-- A call on a `stack_allocator`. -/
inductive call where
  | allocate (count : Nat)
  | deallocate (ptr : Option Nat) (count : Nat)
  deriving DecidableEq, Repr

/-- The state after one call. -/
def step (e : Nat) (st : chain) : call → chain
  | .allocate count => (stack_allocator.allocate e st count).2
  | .deallocate ptr count => stack_allocator.deallocate st ptr count

/-- The state after a sequence of calls. -/
def run (e : Nat) (st : chain) (calls : List call) : chain :=
  calls.foldl (step e) st

/-- The results of a sequence of `allocate` calls, in order, and the final
state. -/
def allocate_all (e : Nat) : chain → List Nat → List (Option Nat) × chain
  | st, [] => ([], st)
  | st, count :: counts =>
    let r := stack_allocator.allocate e st count
    let rs := allocate_all e r.2 counts
    (r.1 :: rs.1, rs.2)

/-- The states of a `stack_allocator<T, Capacity>` with `sizeof(T) = e` that a
freshly constructed allocator reaches by `allocate` and `deallocate` calls. -/
def Reachable (Capacity e : Nat) (st : chain) : Prop :=
  ∃ calls : List call, run e (stack_allocator.ctor Capacity) calls = st

/-- The sum of the `size` fields of the chain. -/
def total_size (st : chain) : Nat := (st.map block_header.size).sum

/-- The chain after `allocate` has found `block` for the working size `size`:
the two headers of a split, or the header as it was. -/
def found_nodes (size : Nat) (block : block_header) : chain :=
  if block.size - size ≥ sizeof_block_header + 8 then
    [{ block with size := size },
     { addr := block.data + size,
       data := block.data + size + sizeof_block_header,
       size := block.size - size - sizeof_block_header }]
  else [block]

/-- Construction of a `stack_allocator<T, Capacity>` from a
`stack_allocator<U, Capacity>` in state `other`; `T` and `U` are the two element
types, taken from any type `Ty` of type names with decidable equality.  For
`U ≠ T` overload resolution selects the constructor template of lines 68-69,
which delegates to the default constructor and does not read `other`.  For
`U = T` a constructor template is never a copy constructor: the implicitly
declared copy (or move) constructor runs and copies the member `head_`
(line 128), so the new allocator walks the chain of the source, which is its
state. -/
def stack_allocator.ctor_from {Ty : Type} [DecidableEq Ty] (Capacity : Nat) (T U : Ty)
    (other : chain) : chain :=
  if U = T then other else stack_allocator.ctor Capacity

/-- The headers of a chain tile the bytes from offset `start` to offset `stop`:
the first header is at `start`, the data of every header begins
`sizeof(block_header)` bytes after the header, the next header begins where the
data of the one before ends, and the data of the last header ends at `stop`. -/
def tiles (start stop : Nat) : chain → Prop
  | [] => start = stop
  | n :: rest =>
    n.addr = start ∧ n.data = n.addr + sizeof_block_header ∧ tiles (n.data + n.size) stop rest

/-- The predicate `tiles` can be evaluated. -/
instance tiles_decidable : ∀ (start stop : Nat) (st : chain), Decidable (tiles start stop st)
  | start, stop, [] => inferInstanceAs (Decidable (start = stop))
  | start, stop, n :: rest =>
    have := tiles_decidable (n.data + n.size) stop rest
    inferInstanceAs (Decidable (n.addr = start ∧ n.data = n.addr + sizeof_block_header ∧
      tiles (n.data + n.size) stop rest))

namespace heap_allocator

/-- The member `max_size()` of `heap_allocator<T>` with `sizeof(T) = e`
(lines 38-41): `std::numeric_limits<size_type>::max() / sizeof(value_type)`. -/
def max_size (e : Nat) : Nat := (size_modulus - 1) / e

end heap_allocator

/-- The state of a `fallback_allocator<T, PrimaryAllocator, FallbackAllocator>`:
its two members (lines 174-175). -/
structure fallback_allocator (PrimaryAllocator FallbackAllocator : Type) where
  primary_allocator : PrimaryAllocator
  fallback_allocator : FallbackAllocator

namespace fallback_allocator

/-- The member `allocate(count)` of `fallback_allocator` (lines 157-160):
`return nullptr;`, with no call on either member. -/
def allocate {P F : Type} (self : Alloc.fallback_allocator P F) (_count : Nat) :
    Option Nat × Alloc.fallback_allocator P F :=
  (none, self)

/-- The member `deallocate(ptr, count)` of `fallback_allocator` (lines 162-165):
an empty body. -/
def deallocate {P F : Type} (self : Alloc.fallback_allocator P F) (_ptr : Option Nat) (_count : Nat) :
    Alloc.fallback_allocator P F :=
  self

/-- The member `max_size()` of `fallback_allocator` (lines 167-171): `return 0;`. -/
def max_size {P F : Type} (_self : Alloc.fallback_allocator P F) : Nat := 0

end fallback_allocator

/-! ## Arithmetic of the working size -/

/-- Masking a `size_t` value with `2 ^ 64 - 8` clears its three low bits. -/
theorem and_mask_eq (x : Nat) (h : x < 2 ^ 64) : x &&& (2 ^ 64 - 8) = x / 8 * 8 := by
  apply Nat.eq_of_testBit_eq
  intro i
  rw [Nat.testBit_and]
  have h8 : (2 : Nat) ^ 64 - 8 = 2 ^ 3 * (2 ^ 61 - 1) := by norm_num
  rw [h8, show x / 8 * 8 = 2 ^ 3 * (x / 2 ^ 3) by omega]
  rw [Nat.testBit_mul_pow_two, Nat.testBit_mul_pow_two]
  by_cases hi : 3 ≤ i
  · simp only [hi, decide_True, Bool.true_and]
    rw [Nat.testBit_two_pow_sub_one, ← Nat.shiftRight_eq_div_pow, Nat.testBit_shiftRight]
    have hsum : 3 + (i - 3) = i := by omega
    rw [hsum]
    by_cases h2 : i - 3 < 61
    · simp [h2]
    · simp only [h2, decide_False, Bool.and_false]
      symm
      apply Nat.testBit_lt_two_pow
      calc x < 2 ^ 64 := h
        _ ≤ 2 ^ i := Nat.pow_le_pow_right (by norm_num) (by omega)
  · simp [hi]

/-- The working size in arithmetic form. -/
theorem align8_eq (size : Nat) : align8 size = (size + 7) % 2 ^ 64 / 8 * 8 := by
  unfold align8 size_modulus
  exact and_mask_eq _ (Nat.mod_lt _ (by norm_num))

/-- Without wrap-around the working size is the request rounded up to 8. -/
theorem align8_of_lt (size : Nat) (h : size + 7 < 2 ^ 64) :
    align8 size = (size + 7) / 8 * 8 := by
  rw [align8_eq, Nat.mod_eq_of_lt h]

theorem align8_zero : align8 0 = 0 := by
  rw [align8_of_lt 0 (by norm_num)]

theorem request_size_zero (e : Nat) : request_size e 0 = 0 := by
  unfold request_size
  simp [align8_zero]

/-! ## The search of `allocate` -/

/-- Every chain either has no header that fits, or splits at its first header
that fits. -/
theorem first_fit_cases (size : Nat) (st : chain) :
    (∀ n ∈ st, n.size < size) ∨
    ∃ pre n post, st = pre ++ n :: post ∧ (∀ m ∈ pre, m.size < size) ∧ size ≤ n.size := by
  induction st with
  | nil => left; simp
  | cons b rest ih =>
    by_cases hb : b.size < size
    · rcases ih with h | ⟨pre, n, post, hst, hpre, hn⟩
      · left
        intro n hn
        rcases List.mem_cons.mp hn with rfl | hn
        · exact hb
        · exact h n hn
      · right
        refine ⟨b :: pre, n, post, by simp [hst], ?_, hn⟩
        intro m hm
        rcases List.mem_cons.mp hm with rfl | hm
        · exact hb
        · exact hpre m hm
    · right
      exact ⟨[], b, rest, rfl, by simp, Nat.le_of_not_lt hb⟩

/-- When no header fits, `allocate` returns `nullptr` and changes nothing. -/
theorem allocate_size_none (size : Nat) (st : chain) (h : ∀ n ∈ st, n.size < size) :
    stack_allocator.allocate_size size st = (none, st) := by
  induction st with
  | nil => rfl
  | cons b rest ih =>
    have hb : b.size < size := h b (List.mem_cons_self _ _)
    have hrest : ∀ n ∈ rest, n.size < size := fun n hn => h n (List.mem_cons_of_mem _ hn)
    simp [stack_allocator.allocate_size, hb, ih hrest]

/-- When `n` is the first header that fits, `allocate` returns its `data` and
rewrites only `n`. -/
theorem allocate_size_found (size : Nat) (pre : chain) (n : block_header) (post : chain)
    (hpre : ∀ m ∈ pre, m.size < size) (hn : size ≤ n.size) :
    stack_allocator.allocate_size size (pre ++ n :: post)
      = (some n.data, pre ++ found_nodes size n ++ post) := by
  induction pre with
  | nil =>
    have hn2 : ¬ n.size < size := Nat.not_lt.mpr hn
    by_cases hs : n.size - size ≥ sizeof_block_header + 8
    · simp [stack_allocator.allocate_size, found_nodes, hn2, hs]
    · simp [stack_allocator.allocate_size, found_nodes, hn2, hs]
  | cons b rest ih =>
    have hb : b.size < size := hpre b (List.mem_cons_self _ _)
    have hrest : ∀ m ∈ rest, m.size < size := fun m hm => hpre m (List.mem_cons_of_mem _ hm)
    simp [stack_allocator.allocate_size, hb, ih hrest]

/-- The claim C1: `allocate` is first-fit.  With `s` the working size of the
call, either the chain splits as `pre ++ n :: post` where every header of `pre`
has `size < s`, `n` has `size ≥ s`, and the call returns the data pointer of
`n`; or no header has `size ≥ s` and the call returns `nullptr`.  The call returns
`nullptr` exactly when no header of the chain has `size ≥ s`. -/
theorem C1_allocate_first_fit (e count : Nat) (st : chain) :
    ((∃ pre n post, st = pre ++ n :: post ∧
        (∀ m ∈ pre, m.size < request_size e count) ∧
        request_size e count ≤ n.size ∧
        (stack_allocator.allocate e st count).1 = some n.data) ∨
      ((∀ n ∈ st, n.size < request_size e count) ∧
        (stack_allocator.allocate e st count).1 = none)) ∧
    ((stack_allocator.allocate e st count).1 = none ↔
      ¬ ∃ n ∈ st, request_size e count ≤ n.size) := by
  unfold stack_allocator.allocate
  rcases first_fit_cases (request_size e count) st with h | ⟨pre, n, post, hst, hpre, hn⟩
  · rw [allocate_size_none _ _ h]
    refine ⟨Or.inr ⟨h, rfl⟩, ?_⟩
    simp only [true_iff, not_exists, not_and, not_le]
    exact h
  · subst hst
    rw [allocate_size_found _ _ _ _ hpre hn]
    refine ⟨Or.inl ⟨pre, n, post, rfl, hpre, hn, rfl⟩, ?_⟩
    constructor
    · intro h
      cases h
    · intro h
      exact absurd ⟨n, by simp, hn⟩ h

/-! ## Reachable states -/

/-- A fresh allocator is in a reachable state. -/
theorem reachable_ctor (Capacity e : Nat) : Reachable Capacity e (stack_allocator.ctor Capacity) :=
  ⟨[], rfl⟩

/-- A call leads from a reachable state to a reachable state. -/
theorem reachable_step (Capacity e : Nat) (st : chain) (c : call)
    (h : Reachable Capacity e st) : Reachable Capacity e (step e st c) := by
  obtain ⟨calls, hcalls⟩ := h
  refine ⟨calls ++ [c], ?_⟩
  simp [run, List.foldl_append] at hcalls ⊢
  rw [hcalls]

/-- A property of the fresh state that every `allocate` keeps holds in every
reachable state (`deallocate` leaves the state as it is). -/
theorem reachable_induction (Capacity e : Nat) (P : chain → Prop)
    (h0 : P (stack_allocator.ctor Capacity))
    (hstep : ∀ st count, P st → P (stack_allocator.allocate e st count).2)
    (st : chain) (h : Reachable Capacity e st) : P st := by
  obtain ⟨calls, hcalls⟩ := h
  subst hcalls
  induction calls using List.reverseRecOn with
  | nil => exact h0
  | append_singleton cs c ih =>
    simp only [run, List.foldl_append, List.foldl_cons, List.foldl_nil]
    cases c with
    | allocate count => exact hstep _ count ih
    | deallocate ptr count => exact ih

/-- The state after `allocate`, by cases on the search. -/
theorem allocate_size_state (size : Nat) (st : chain) :
    (stack_allocator.allocate_size size st = (none, st) ∧ ∀ n ∈ st, n.size < size) ∨
    ∃ pre n post, st = pre ++ n :: post ∧ (∀ m ∈ pre, m.size < size) ∧ size ≤ n.size ∧
      stack_allocator.allocate_size size st = (some n.data, pre ++ found_nodes size n ++ post) := by
  rcases first_fit_cases size st with h | ⟨pre, n, post, hst, hpre, hn⟩
  · exact Or.inl ⟨allocate_size_none size st h, h⟩
  · refine Or.inr ⟨pre, n, post, hst, hpre, hn, ?_⟩
    rw [hst]
    exact allocate_size_found size pre n post hpre hn

/-- The headers that replace a found header are no larger than it. -/
theorem found_nodes_size_le (size : Nat) (n : block_header) (hn : size ≤ n.size) :
    ∀ m ∈ found_nodes size n, m.size ≤ n.size := by
  intro m hm
  unfold found_nodes at hm
  split at hm
  · simp only [List.mem_cons, List.mem_singleton, List.not_mem_nil, or_false] at hm
    rcases hm with rfl | rfl
    · exact hn
    · exact le_trans (Nat.sub_le _ _) (Nat.sub_le _ _)
  · simp only [List.mem_singleton] at hm
    subst hm
    exact le_refl _

/-- A bound on every `size` of the chain survives `allocate`. -/
theorem allocate_size_bound (size B : Nat) (st : chain) (h : ∀ n ∈ st, n.size ≤ B) :
    ∀ n ∈ (stack_allocator.allocate_size size st).2, n.size ≤ B := by
  rcases allocate_size_state size st with ⟨heq, _⟩ | ⟨pre, n, post, hst, _, hn, heq⟩
  · rw [heq]
    exact h
  · rw [heq]
    subst hst
    intro m hm
    simp only [List.mem_append] at hm
    rcases hm with (hm | hm) | hm
    · exact h m (by simp [hm])
    · exact le_trans (found_nodes_size_le size n hn m hm) (h n (by simp))
    · exact h m (by simp [hm])

/-- In every state reached from a fresh arena that holds at least its first
header, no `size` exceeds `Capacity - sizeof(block_header)`. -/
theorem reachable_size_le (Capacity e : Nat) (hH : sizeof_block_header ≤ Capacity)
    (hC : Capacity < size_modulus) (st : chain) (h : Reachable Capacity e st) :
    ∀ n ∈ st, n.size ≤ Capacity - sizeof_block_header := by
  refine reachable_induction Capacity e
    (fun st => ∀ n ∈ st, n.size ≤ Capacity - sizeof_block_header) ?_ ?_ st h
  · intro n hn
    simp only [stack_allocator.ctor, List.mem_singleton] at hn
    subst hn
    simp only
    unfold sizeof_block_header size_modulus at *
    omega
  · intro st count ih
    exact allocate_size_bound _ _ st ih

/-- A reachable chain is never empty: `head_` is never `nullptr`. -/
theorem reachable_ne_nil (Capacity e : Nat) (st : chain) (h : Reachable Capacity e st) :
    st ≠ [] := by
  refine reachable_induction Capacity e (fun st => st ≠ []) ?_ ?_ st h
  · simp [stack_allocator.ctor]
  · intro st count ih
    unfold stack_allocator.allocate
    rcases allocate_size_state (request_size e count) st with ⟨heq, _⟩ | ⟨pre, n, post, _, _, _, heq⟩
    · rw [heq]
      exact ih
    · rw [heq]
      unfold found_nodes
      split <;> simp

/-! ## Handing out blocks -/

/-- The claim C2 at its failing input: on a fresh `stack_allocator<T, 64>` with
`sizeof(T) = 8`, the working size of `allocate(1)` is 8 and two calls
`allocate(1)` in a row both succeed and both return offset 24, the same block. -/
theorem C2_same_block_handed_out_twice :
    request_size 8 1 = 8 ∧
    (allocate_all 8 (stack_allocator.ctor 64) [1, 1]).1 = [some 24, some 24] := by
  constructor <;> rfl

/-- The claim C3 at its failing input: on a fresh `stack_allocator<T, 64>` with
`sizeof(T) = 8`, after two successful calls `allocate(1)` the third `allocate(1)`
returns offset 24 and not `nullptr`; the state after the three calls is the one
the first call left. -/
theorem C3_third_allocate_not_null :
    allocate_all 8 (stack_allocator.ctor 64) [1, 1, 1]
      = ([some 24, some 24, some 24],
         [{ addr := 0, data := 24, size := 8 }, { addr := 32, data := 56, size := 8 }]) := by
  rfl

/-- A header with room for the remaining budget `R` survives an `allocate` that
fits in `R`: the call succeeds, and a header with room for the budget that is
left is in the chain afterwards. -/
theorem allocate_size_keeps_room (size R : Nat) (st : chain)
    (hroom : ∃ n ∈ st, R ≤ n.size + sizeof_block_header)
    (hfit : size + sizeof_block_header ≤ R) :
    (stack_allocator.allocate_size size st).1 ≠ none ∧
    ∃ n ∈ (stack_allocator.allocate_size size st).2,
      R - (size + sizeof_block_header) ≤ n.size + sizeof_block_header := by
  obtain ⟨n, hn, hnR⟩ := hroom
  rcases allocate_size_state size st with ⟨_, hall⟩ | ⟨pre, m, post, hst, _, hm, heq⟩
  · have := hall n hn
    omega
  · rw [heq]
    refine ⟨by simp, ?_⟩
    subst hst
    simp only [List.mem_append, List.mem_cons] at hn
    rcases hn with hn | rfl | hn
    · exact ⟨n, by simp [hn], by omega⟩
    · unfold found_nodes
      split
      · next hs =>
        refine ⟨{ addr := n.data + size, data := n.data + size + sizeof_block_header,
                  size := n.size - size - sizeof_block_header }, by simp, ?_⟩
        simp only
        omega
      · exact ⟨n, by simp, by omega⟩
    · exact ⟨n, by simp [hn], by omega⟩

/-- A sequence of requests whose working sizes and headers fit in the budget of
a chain all succeed. -/
theorem allocate_all_succeeds (e : Nat) (counts : List Nat) :
    ∀ (R : Nat) (st : chain), (∃ n ∈ st, R ≤ n.size + sizeof_block_header) →
      (counts.map (fun c => request_size e c + sizeof_block_header)).sum ≤ R →
      ∀ r ∈ (allocate_all e st counts).1, r ≠ none := by
  induction counts with
  | nil =>
    intro R st _ _ r hr
    simp [allocate_all] at hr
  | cons c cs ih =>
    intro R st hroom hsum r hr
    simp only [List.map_cons, List.sum_cons] at hsum
    have hstep := allocate_size_keeps_room (request_size e c) R st hroom (by omega)
    simp only [allocate_all, List.mem_cons] at hr
    rcases hr with rfl | hr
    · exact hstep.1
    · exact ih (R - (request_size e c + sizeof_block_header)) _ hstep.2 (by omega) r hr

/-- The claim C4: on a freshly constructed arena of capacity `Capacity`, a
sequence of `allocate` calls whose working sizes, each with one header of
`sizeof(block_header)` bytes, sum to at most `Capacity` all return a non-null
pointer. -/
theorem C4_fitting_allocations_succeed (Capacity e : Nat) (counts : List Nat)
    (hC : Capacity < size_modulus)
    (hfit : (counts.map (fun c => request_size e c + sizeof_block_header)).sum ≤ Capacity) :
    ∀ r ∈ (allocate_all e (stack_allocator.ctor Capacity) counts).1, r ≠ none := by
  cases counts with
  | nil =>
    intro r hr
    simp [allocate_all] at hr
  | cons c cs =>
    apply allocate_all_succeeds e (c :: cs) Capacity _ _ hfit
    refine ⟨_, List.mem_singleton_self _, ?_⟩
    simp only [List.map_cons, List.sum_cons] at hfit
    simp only
    unfold size_modulus at *
    unfold sizeof_block_header at *
    omega

/-- The claim C4 on a `stack_allocator<T, 64>` with `sizeof(T) = 8`: two calls
`allocate(1)` use `2 * (8 + 24) = 64` bytes and both succeed. -/
theorem C4_fitting_allocations_succeed_witness :
    64 < size_modulus ∧
    ([1, 1].map (fun c => request_size 8 c + sizeof_block_header)).sum ≤ 64 ∧
    ∀ r ∈ (allocate_all 8 (stack_allocator.ctor 64) [1, 1]).1, r ≠ none :=
  ⟨by decide, by decide,
    C4_fitting_allocations_succeed 64 8 [1, 1] (by decide) (by decide)⟩

/-! ## `deallocate`, capacity and failure -/

/-- The claim C5: `deallocate` is a no-op.  For every state, pointer and count
the state after `deallocate(ptr, count)` is the state before it, `max_size()` is
the same before and after, and every later sequence of `allocate` calls returns
the same results and ends in the same state as without the `deallocate`. -/
theorem C5_deallocate_no_op (Capacity e : Nat) (st : chain) (ptr : Option Nat) (count : Nat) :
    stack_allocator.deallocate st ptr count = st ∧
    stack_allocator.max_size Capacity e (stack_allocator.deallocate st ptr count)
      = stack_allocator.max_size Capacity e st ∧
    ∀ counts : List Nat,
      allocate_all e (stack_allocator.deallocate st ptr count) counts
        = allocate_all e st counts :=
  ⟨rfl, rfl, fun _ => rfl⟩

/-- The sizes of the headers that replace a found header sum to at most its
size. -/
theorem total_size_found_nodes (size : Nat) (n : block_header) (hn : size ≤ n.size) :
    total_size (found_nodes size n) ≤ n.size := by
  unfold found_nodes total_size
  split
  · next hs =>
    simp only [List.map_cons, List.map_nil, List.sum_cons, List.sum_nil]
    unfold sizeof_block_header at *
    omega
  · simp

theorem total_size_append (a b : chain) : total_size (a ++ b) = total_size a + total_size b := by
  simp [total_size]

theorem total_size_cons (n : block_header) (b : chain) :
    total_size (n :: b) = n.size + total_size b := by
  simp [total_size]

/-- The claim C6: the sum of the `size` fields of the chain never grows.  For
every state and every `allocate` or `deallocate` call, the sum after the call is
at most the sum before it. -/
theorem C6_total_size_non_increasing (e : Nat) (st : chain) (c : call) :
    total_size (step e st c) ≤ total_size st := by
  cases c with
  | deallocate ptr count => exact le_refl _
  | allocate count =>
    simp only [step, stack_allocator.allocate]
    rcases allocate_size_state (request_size e count) st with
      ⟨heq, _⟩ | ⟨pre, n, post, hst, _, hn, heq⟩
    · rw [heq]
    · rw [heq]
      subst hst
      simp only [total_size_append, total_size_cons]
      have := total_size_found_nodes (request_size e count) n hn
      omega

/-- The claim C7: a failed allocation leaves the state as it was.  Whenever
`allocate` returns `nullptr`, the chain after the call equals the chain before
it. -/
theorem C7_failed_allocate_keeps_state (e : Nat) (st : chain) (count : Nat)
    (hnull : (stack_allocator.allocate e st count).1 = none) :
    (stack_allocator.allocate e st count).2 = st := by
  unfold stack_allocator.allocate at *
  rcases allocate_size_state (request_size e count) st with
    ⟨heq, _⟩ | ⟨pre, n, post, _, _, _, heq⟩
  · rw [heq]
  · rw [heq] at hnull
    cases hnull

/-- The claim C7 on a fresh `stack_allocator<T, 64>` with `sizeof(T) = 8`:
`allocate(9)` asks for 72 bytes, returns `nullptr` and leaves the single header
of size 40. -/
theorem C7_failed_allocate_keeps_state_witness :
    (stack_allocator.allocate 8 (stack_allocator.ctor 64) 9).1 = none ∧
    (stack_allocator.allocate 8 (stack_allocator.ctor 64) 9).2 = stack_allocator.ctor 64 :=
  ⟨by rfl, C7_failed_allocate_keeps_state 8 (stack_allocator.ctor 64) 9 (by rfl)⟩

/-- The claim C8 as stated fails.  With `sizeof(T) = 8` and `Capacity = 64`,
`max_size()` is 8 and the count `2 ^ 61` is above it, but `count * 8` wraps to 0
and `allocate(2 ^ 61)` on the fresh arena returns offset 24.  With `Capacity = 8`,
below `sizeof(block_header)`, the size of the first header wraps to
`2 ^ 64 - 16`, `max_size()` is 1 and `allocate(9)` on the fresh arena returns
offset 24. -/
theorem C8_max_size_not_a_bound :
    (stack_allocator.max_size 64 8 (stack_allocator.ctor 64) < 2 ^ 61 ∧
      2 ^ 61 < size_modulus ∧
      (stack_allocator.allocate 8 (stack_allocator.ctor 64) (2 ^ 61)).1 = some 24) ∧
    (stack_allocator.max_size 8 8 (stack_allocator.ctor 8) < 9 ∧
      (stack_allocator.allocate 8 (stack_allocator.ctor 8) 9).1 = some 24) := by
  refine ⟨⟨by decide, by decide, by rfl⟩, by decide, by rfl⟩

/-- The claim C8, amended: for an arena with `Capacity ≥ sizeof(block_header)`,
every element size `e ≥ 1`, every reachable state and every count above
`max_size()` whose byte size does not wrap (`count * e + 7 < 2 ^ 64`),
`allocate(count)` returns `nullptr`. -/
theorem C8_max_size_bound_amended (Capacity e count : Nat) (st : chain)
    (hH : sizeof_block_header ≤ Capacity) (hC : Capacity < size_modulus) (he : 1 ≤ e)
    (hreach : Reachable Capacity e st)
    (hcount : stack_allocator.max_size Capacity e st < count)
    (hwrap : count * e + 7 < size_modulus) :
    (stack_allocator.allocate e st count).1 = none := by
  have hsizes := reachable_size_le Capacity e hH hC st hreach
  have hbytes : Capacity < count * e := by
    unfold stack_allocator.max_size at hcount
    exact (Nat.div_lt_iff_lt_mul he).mp hcount
  have hreq : count * e ≤ request_size e count := by
    unfold request_size
    unfold size_modulus at *
    rw [Nat.mod_eq_of_lt (by omega), align8_of_lt _ hwrap]
    omega
  unfold stack_allocator.allocate
  rw [allocate_size_none]
  intro n hn
  have := hsizes n hn
  omega

/-- The amended claim C8 on a fresh `stack_allocator<T, 64>` with
`sizeof(T) = 8`: `max_size()` is 8 and `allocate(9)` returns `nullptr`. -/
theorem C8_max_size_bound_amended_witness :
    sizeof_block_header ≤ 64 ∧ 64 < size_modulus ∧ 1 ≤ 8 ∧
    Reachable 64 8 (stack_allocator.ctor 64) ∧
    stack_allocator.max_size 64 8 (stack_allocator.ctor 64) < 9 ∧
    9 * 8 + 7 < size_modulus ∧
    (stack_allocator.allocate 8 (stack_allocator.ctor 64) 9).1 = none :=
  ⟨by decide, by decide, by decide, reachable_ctor 64 8, by decide, by decide,
    C8_max_size_bound_amended 64 8 9 (stack_allocator.ctor 64) (by decide) (by decide)
      (by decide) (reachable_ctor 64 8) (by decide) (by decide)⟩

/-! ## Zero-count requests and rounding -/

/-- The claim C9: a zero-count request always succeeds.  For every element size
and every reachable state, the working size of `allocate(0)` is 0, the first
header of the chain (the one at `head_`) is the one found, and the call returns
that header's data pointer, which is not `nullptr`. -/
theorem C9_allocate_zero_succeeds (Capacity e : Nat) (st : chain)
    (hreach : Reachable Capacity e st) :
    request_size e 0 = 0 ∧
    (∃ head rest, st = head :: rest ∧
      (stack_allocator.allocate e st 0).1 = some head.data) ∧
    (stack_allocator.allocate e st 0).1 ≠ none := by
  have hne := reachable_ne_nil Capacity e st hreach
  cases st with
  | nil => exact absurd rfl hne
  | cons head rest =>
    have hfound := allocate_size_found 0 [] head rest (by simp) (Nat.zero_le _)
    simp only [List.nil_append] at hfound
    refine ⟨request_size_zero e, ⟨head, rest, rfl, ?_⟩, ?_⟩
    · unfold stack_allocator.allocate
      rw [request_size_zero, hfound]
    · unfold stack_allocator.allocate
      rw [request_size_zero, hfound]
      simp

/-- The claim C9 on a fresh `stack_allocator<T, 64>` with `sizeof(T) = 8`:
`allocate(0)` returns the data pointer of the first header. -/
theorem C9_allocate_zero_succeeds_witness :
    Reachable 64 8 (stack_allocator.ctor 64) ∧
    request_size 8 0 = 0 ∧
    (∃ head rest, stack_allocator.ctor 64 = head :: rest ∧
      (stack_allocator.allocate 8 (stack_allocator.ctor 64) 0).1 = some head.data) ∧
    (stack_allocator.allocate 8 (stack_allocator.ctor 64) 0).1 ≠ none :=
  ⟨reachable_ctor 64 8,
    C9_allocate_zero_succeeds 64 8 (stack_allocator.ctor 64) (reachable_ctor 64 8)⟩

/-- The claim C10: rounding.  For a request of `count * e` bytes with
`count * e + 7` below `2 ^ 64`, the working size of `allocate` is
`(count * e + 7) & ~7`, and it is the least multiple of 8 that is at least
`count * e`.  One element of 3 bytes and one element of 5 bytes both have working
size 8, and from the same state `allocate(1)` returns the same pointer and leaves
the same state for both element types. -/
theorem C10_rounding (e count : Nat) (st : chain) (hwrap : count * e + 7 < size_modulus) :
    request_size e count = (count * e + 7) &&& (size_modulus - 8) ∧
    8 ∣ request_size e count ∧
    count * e ≤ request_size e count ∧
    (∀ m, 8 ∣ m → count * e ≤ m → request_size e count ≤ m) ∧
    request_size 3 1 = 8 ∧ request_size 5 1 = 8 ∧
    stack_allocator.allocate 3 st 1 = stack_allocator.allocate 5 st 1 := by
  have hmod : count * e % size_modulus = count * e := Nat.mod_eq_of_lt (by omega)
  have hreq : request_size e count = (count * e + 7) / 8 * 8 := by
    unfold request_size
    rw [hmod]
    exact align8_of_lt _ hwrap
  refine ⟨?_, ?_, ?_, ?_, by rfl, by rfl, ?_⟩
  · unfold request_size align8
    rw [hmod, Nat.mod_eq_of_lt hwrap]
  · rw [hreq]
    exact Dvd.intro_left _ rfl
  · rw [hreq]
    omega
  · intro m hm hle
    rw [hreq]
    obtain ⟨k, rfl⟩ := hm
    omega
  · unfold stack_allocator.allocate
    rw [show request_size 3 1 = 8 from rfl, show request_size 5 1 = 8 from rfl]

/-- The claim C10 for one 3-byte element on a fresh `stack_allocator<T, 64>`. -/
theorem C10_rounding_witness :
    1 * 3 + 7 < size_modulus ∧
    request_size 3 1 = (1 * 3 + 7) &&& (size_modulus - 8) ∧
    8 ∣ request_size 3 1 ∧
    1 * 3 ≤ request_size 3 1 ∧
    (∀ m, 8 ∣ m → 1 * 3 ≤ m → request_size 3 1 ≤ m) ∧
    request_size 3 1 = 8 ∧ request_size 5 1 = 8 ∧
    stack_allocator.allocate 3 (stack_allocator.ctor 64) 1
      = stack_allocator.allocate 5 (stack_allocator.ctor 64) 1 :=
  ⟨by decide, C10_rounding 3 1 (stack_allocator.ctor 64) (by decide)⟩

/-! ## The two paths of a successful `allocate` -/

/-- The headers written by a split. -/
theorem found_nodes_split (size : Nat) (n : block_header)
    (hs : n.size - size ≥ sizeof_block_header + 8) :
    found_nodes size n =
      [{ addr := n.addr, data := n.data, size := size },
       { addr := n.data + size,
         data := n.data + size + sizeof_block_header,
         size := n.size - size - sizeof_block_header }] := by
  simp [found_nodes, hs]

/-- Without a split the found header stays as it is. -/
theorem found_nodes_whole (size : Nat) (n : block_header)
    (hs : n.size - size < sizeof_block_header + 8) :
    found_nodes size n = [n] := by
  have hs2 : ¬ n.size - size ≥ sizeof_block_header + 8 := Nat.not_le.mpr hs
  simp [found_nodes, hs2]

/-- The claim C11: a split conserves bytes.  When `allocate` finds the header
`n` for the working size `s` and splits it (`n.size - s ≥ sizeof(block_header) + 8`),
the chain afterwards has the returned header `blk` and a new header `fresh` in
the place of `n`; `blk.size = s`, computing `n.size - s - sizeof(block_header)`
does not wrap, and `blk.size + sizeof(block_header) + fresh.size = n.size`. -/
theorem C11_split_conserves_bytes (e count : Nat) (pre : chain) (n : block_header)
    (post : chain)
    (hpre : ∀ m ∈ pre, m.size < request_size e count)
    (hn : request_size e count ≤ n.size)
    (hsplit : n.size - request_size e count ≥ sizeof_block_header + 8) :
    ∃ blk fresh,
      stack_allocator.allocate e (pre ++ n :: post) count
        = (some blk.data, pre ++ blk :: fresh :: post) ∧
      blk.size = request_size e count ∧
      request_size e count + sizeof_block_header ≤ n.size ∧
      blk.size + sizeof_block_header + fresh.size = n.size := by
  refine ⟨{ addr := n.addr, data := n.data, size := request_size e count },
    { addr := n.data + request_size e count,
      data := n.data + request_size e count + sizeof_block_header,
      size := n.size - request_size e count - sizeof_block_header }, ?_, rfl, ?_, ?_⟩
  · unfold stack_allocator.allocate
    rw [allocate_size_found _ _ _ _ hpre hn, found_nodes_split _ _ hsplit]
    simp
  · omega
  · simp only
    omega

/-- The claim C11 on a fresh `stack_allocator<T, 64>` with `sizeof(T) = 8`:
`allocate(1)` splits the header of size 40 into 8 + 24 + 8. -/
theorem C11_split_conserves_bytes_witness :
    ∃ blk fresh,
      stack_allocator.allocate 8 ([] ++ { addr := 0, data := 24, size := 40 } :: []) 1
        = (some blk.data, [] ++ blk :: fresh :: []) ∧
      blk.size = request_size 8 1 ∧
      request_size 8 1 + sizeof_block_header ≤ 40 ∧
      blk.size + sizeof_block_header + fresh.size = 40 :=
  C11_split_conserves_bytes 8 1 [] { addr := 0, data := 24, size := 40 } []
    (by simp) (by decide) (by decide)

/-- The claim C16: the postcondition of a split.  When `allocate` finds the
header `n` for the working size `s` and `n.size - s ≥ sizeof(block_header) + 8`,
it returns `n.data`; afterwards `n` has size `s`, it is followed by a new header
at `n.data + s` with data at `n.data + s + sizeof(block_header)` and size
`n.size - s - sizeof(block_header)`, the `next` of `n` is that new header, the
`next` of the new header is the former `next` of `n`, and the headers before and
after are as they were. -/
theorem C16_split_postcondition (e count : Nat) (pre : chain) (n : block_header)
    (post : chain)
    (hpre : ∀ m ∈ pre, m.size < request_size e count)
    (hn : request_size e count ≤ n.size)
    (hsplit : n.size - request_size e count ≥ sizeof_block_header + 8) :
    stack_allocator.allocate e (pre ++ n :: post) count
      = (some n.data,
         pre ++ { addr := n.addr, data := n.data, size := request_size e count } ::
           { addr := n.data + request_size e count,
             data := n.data + request_size e count + sizeof_block_header,
             size := n.size - request_size e count - sizeof_block_header } :: post) ∧
    next_ptr ({ addr := n.addr, data := n.data, size := request_size e count } ::
        { addr := n.data + request_size e count,
          data := n.data + request_size e count + sizeof_block_header,
          size := n.size - request_size e count - sizeof_block_header } :: post)
      = some (n.data + request_size e count) ∧
    next_ptr ({ addr := n.data + request_size e count,
                data := n.data + request_size e count + sizeof_block_header,
                size := n.size - request_size e count - sizeof_block_header } :: post)
      = next_ptr (n :: post) := by
  refine ⟨?_, rfl, ?_⟩
  · unfold stack_allocator.allocate
    rw [allocate_size_found _ _ _ _ hpre hn, found_nodes_split _ _ hsplit]
    simp
  · cases post <;> rfl

/-- The claim C16 on a fresh `stack_allocator<T, 64>` with `sizeof(T) = 8`: the
first `allocate(1)` returns offset 24, shrinks the first header to size 8 and
leaves a new header at offset 32 with data at 56 and size 8. -/
theorem C16_split_postcondition_witness :
    stack_allocator.allocate 8 (stack_allocator.ctor 64) 1
      = (some 24, [{ addr := 0, data := 24, size := 8 }, { addr := 32, data := 56, size := 8 }]) ∧
    next_ptr [{ addr := 0, data := 24, size := 8 }, { addr := 32, data := 56, size := 8 }]
      = some 32 ∧
    next_ptr [{ addr := 32, data := 56, size := 8 }] = none :=
  C16_split_postcondition 8 1 [] { addr := 0, data := 24, size := 40 } []
    (by simp) (by decide) (by decide)

/-- The claim C17: the path without a split leaves the chain untouched.  When
`allocate` finds the header `n` for the working size `s` and
`n.size - s < sizeof(block_header) + 8`, it returns `n.data` and the chain after
the call is the chain before it: `n` is still in its place with the same size
and the same neighbours. -/
theorem C17_no_split_keeps_chain (e count : Nat) (pre : chain) (n : block_header)
    (post : chain)
    (hpre : ∀ m ∈ pre, m.size < request_size e count)
    (hn : request_size e count ≤ n.size)
    (hwhole : n.size - request_size e count < sizeof_block_header + 8) :
    stack_allocator.allocate e (pre ++ n :: post) count = (some n.data, pre ++ n :: post) := by
  unfold stack_allocator.allocate
  rw [allocate_size_found _ _ _ _ hpre hn, found_nodes_whole _ _ hwhole]
  simp

/-- The claim C17 on a `stack_allocator<T, 64>` with `sizeof(T) = 8` after one
`allocate(1)`: the next `allocate(1)` finds the first header (size 8, nothing
left over), returns offset 24 and changes nothing. -/
theorem C17_no_split_keeps_chain_witness :
    stack_allocator.allocate 8
        ([] ++ { addr := 0, data := 24, size := 8 } :: [{ addr := 32, data := 56, size := 8 }]) 1
      = (some 24,
         [] ++ { addr := 0, data := 24, size := 8 } :: [{ addr := 32, data := 56, size := 8 }]) :=
  C17_no_split_keeps_chain 8 1 [] { addr := 0, data := 24, size := 8 }
    [{ addr := 32, data := 56, size := 8 }] (by simp) (by decide) (by decide)

/-- A successful `allocate` followed by the same request: the second call finds
the same header and takes the path without a split. -/
theorem allocate_size_twice (size : Nat) (st : chain)
    (hsucc : (stack_allocator.allocate_size size st).1 ≠ none) :
    stack_allocator.allocate_size size (stack_allocator.allocate_size size st).2
      = stack_allocator.allocate_size size st := by
  rcases allocate_size_state size st with ⟨heq, _⟩ | ⟨pre, n, post, hst, hpre, hn, heq⟩
  · rw [heq] at hsucc
    exact absurd rfl hsucc
  · rw [heq]
    simp only
    by_cases hs : n.size - size ≥ sizeof_block_header + 8
    · rw [found_nodes_split _ _ hs]
      have h2 := allocate_size_found size pre { addr := n.addr, data := n.data, size := size }
        ({ addr := n.data + size, data := n.data + size + sizeof_block_header,
           size := n.size - size - sizeof_block_header } :: post) hpre (le_refl _)
      rw [found_nodes_whole] at h2
      · simpa using h2
      · simp [sizeof_block_header]
    · have hs2 : n.size - size < sizeof_block_header + 8 := Nat.not_le.mp hs
      rw [found_nodes_whole _ _ hs2]
      have h2 := allocate_size_found size pre n post hpre hn
      rw [found_nodes_whole _ _ hs2] at h2
      simpa using h2

/-- The claim C20: repeating a request.  For every state and every count for
which `allocate(count)` succeeds, an immediately following `allocate(count)`
returns the same pointer as the first call and leaves the state as the first
call left it. -/
theorem C20_repeated_request (e count : Nat) (st : chain)
    (hsucc : (stack_allocator.allocate e st count).1 ≠ none) :
    (stack_allocator.allocate e (stack_allocator.allocate e st count).2 count).1
      = (stack_allocator.allocate e st count).1 ∧
    (stack_allocator.allocate e (stack_allocator.allocate e st count).2 count).2
      = (stack_allocator.allocate e st count).2 := by
  unfold stack_allocator.allocate at *
  rw [allocate_size_twice _ _ hsucc]
  exact ⟨rfl, rfl⟩

/-- The claim C20 on a fresh `stack_allocator<T, 64>` with `sizeof(T) = 8`:
`allocate(1)` succeeds, and a second `allocate(1)` returns the same pointer and
the same state. -/
theorem C20_repeated_request_witness :
    (stack_allocator.allocate 8 (stack_allocator.ctor 64) 1).1 ≠ none ∧
    (stack_allocator.allocate 8 (stack_allocator.allocate 8 (stack_allocator.ctor 64) 1).2 1).1
      = (stack_allocator.allocate 8 (stack_allocator.ctor 64) 1).1 ∧
    (stack_allocator.allocate 8 (stack_allocator.allocate 8 (stack_allocator.ctor 64) 1).2 1).2
      = (stack_allocator.allocate 8 (stack_allocator.ctor 64) 1).2 :=
  ⟨by decide, C20_repeated_request 8 1 (stack_allocator.ctor 64) (by decide)⟩

/-! ## The headers tile the buffer -/

/-- Tiling of a chain in two parts meets at one offset. -/
theorem tiles_append (xs ys : chain) :
    ∀ a c : Nat, tiles a c (xs ++ ys) ↔ ∃ b, tiles a b xs ∧ tiles b c ys := by
  induction xs with
  | nil =>
    intro a c
    simp [tiles]
  | cons x xs ih =>
    intro a c
    show (x.addr = a ∧ x.data = x.addr + sizeof_block_header ∧
        tiles (x.data + x.size) c (xs ++ ys)) ↔
      ∃ b, (x.addr = a ∧ x.data = x.addr + sizeof_block_header ∧
        tiles (x.data + x.size) b xs) ∧ tiles b c ys
    rw [ih]
    constructor
    · rintro ⟨h1, h2, b, h3, h4⟩
      exact ⟨b, ⟨h1, h2, h3⟩, h4⟩
    · rintro ⟨b, ⟨h1, h2, h3⟩, h4⟩
      exact ⟨h1, h2, b, h3, h4⟩

/-- The headers that replace a found header tile the same bytes. -/
theorem tiles_found_nodes (size : Nat) (n : block_header) (post : chain) (b c : Nat)
    (hn : size ≤ n.size) (h : tiles b c (n :: post)) :
    tiles b c (found_nodes size n ++ post) := by
  obtain ⟨h1, h2, h3⟩ := h
  by_cases hs : n.size - size ≥ sizeof_block_header + 8
  · rw [found_nodes_split _ _ hs]
    have hend : n.data + size + sizeof_block_header + (n.size - size - sizeof_block_header)
        = n.data + n.size := by omega
    simp only [List.cons_append, List.nil_append, tiles]
    rw [hend]
    exact ⟨h1, h2, trivial, trivial, h3⟩
  · rw [found_nodes_whole _ _ (Nat.not_le.mp hs)]
    exact ⟨h1, h2, h3⟩

/-- The search and the split of `allocate` keep the tiling. -/
theorem allocate_size_tiles (size a c : Nat) (st : chain) (h : tiles a c st) :
    tiles a c (stack_allocator.allocate_size size st).2 := by
  rcases allocate_size_state size st with ⟨heq, _⟩ | ⟨pre, n, post, hst, _, hn, heq⟩
  · rw [heq]
    exact h
  · rw [heq]
    subst hst
    obtain ⟨b, hb1, hb2⟩ := (tiles_append pre (n :: post) a c).mp h
    simp only [List.append_assoc]
    exact (tiles_append pre (found_nodes size n ++ post) a c).mpr
      ⟨b, hb1, tiles_found_nodes size n post b c hn hb2⟩

/-- In a tiling every data region lies between the bounds, after its header. -/
theorem tiles_bounds (st : chain) :
    ∀ a c : Nat, tiles a c st →
      ∀ n ∈ st, n.data = n.addr + sizeof_block_header ∧ a ≤ n.addr ∧ n.data + n.size ≤ c := by
  induction st with
  | nil =>
    intro a c _ n hn
    cases hn
  | cons x xs ih =>
    intro a c h n hn
    obtain ⟨h1, h2, h3⟩ := h
    rcases List.mem_cons.mp hn with rfl | hn
    · cases xs with
      | nil =>
        simp only [tiles] at h3
        exact ⟨h2, by omega, by omega⟩
      | cons y ys =>
        have hy := ih (n.data + n.size) c h3 y (List.mem_cons_self _ _)
        exact ⟨h2, by omega, by omega⟩
    · have hn2 := ih (x.data + x.size) c h3 n hn
      exact ⟨hn2.1, by omega, hn2.2.2⟩

/-- In a tiling the data offsets increase strictly along the chain. -/
theorem tiles_sorted (st : chain) :
    ∀ a c : Nat, tiles a c st → st.Pairwise (fun x y => x.data < y.data) := by
  induction st with
  | nil =>
    intro a c _
    exact List.Pairwise.nil
  | cons x xs ih =>
    intro a c h
    obtain ⟨_, h2, h3⟩ := h
    refine List.Pairwise.cons ?_ (ih _ _ h3)
    intro m hm
    have hb := tiles_bounds xs _ _ h3 m hm
    unfold sizeof_block_header at *
    omega

/-- In a tiling the headers and their data regions add up to the tiled bytes. -/
theorem tiles_sum (st : chain) :
    ∀ a c : Nat, tiles a c st →
      a + (st.map (fun n => sizeof_block_header + n.size)).sum = c := by
  induction st with
  | nil =>
    intro a c h
    simpa [tiles] using h
  | cons x xs ih =>
    intro a c h
    obtain ⟨h1, h2, h3⟩ := h
    have := ih _ _ h3
    simp only [List.map_cons, List.sum_cons]
    omega

/-- In a tiling each header begins where the data of the one before it ends. -/
theorem tiles_adjacent (pre : chain) (x y : block_header) (post : chain) (a c : Nat)
    (h : tiles a c (pre ++ x :: y :: post)) : y.addr = x.data + x.size := by
  obtain ⟨b, _, hb⟩ := (tiles_append pre (x :: y :: post) a c).mp h
  exact hb.2.2.1

/-- In a tiling the data of the last header ends at the upper bound. -/
theorem tiles_last (front : chain) (last : block_header) (a c : Nat)
    (h : tiles a c (front ++ [last])) : last.data + last.size = c := by
  obtain ⟨b, _, hb⟩ := (tiles_append front [last] a c).mp h
  exact hb.2.2

/-- The headers of every state reached from a fresh arena that holds at least
its first header tile the whole buffer. -/
theorem reachable_tiles (Capacity e : Nat) (hH : sizeof_block_header ≤ Capacity)
    (hC : Capacity < size_modulus) (st : chain) (h : Reachable Capacity e st) :
    tiles 0 Capacity st := by
  refine reachable_induction Capacity e (fun st => tiles 0 Capacity st) ?_ ?_ st h
  · refine ⟨rfl, rfl, ?_⟩
    show sizeof_block_header + (Capacity + size_modulus - sizeof_block_header) % size_modulus
      = Capacity
    unfold sizeof_block_header size_modulus at *
    omega
  · intro st count ih
    exact allocate_size_tiles _ 0 Capacity st ih

/-! ## Invariants of the reachable states -/

/-- The working size is a multiple of 8, whatever the request. -/
theorem request_size_dvd (e count : Nat) : 8 ∣ request_size e count := by
  unfold request_size
  rw [align8_eq]
  exact Dvd.intro_left _ rfl

/-- An `allocate` with a working size that is a multiple of 8 keeps every `size`
a multiple of 8. -/
theorem allocate_size_dvd (size : Nat) (st : chain) (hsize : 8 ∣ size)
    (h : ∀ n ∈ st, 8 ∣ n.size) :
    ∀ n ∈ (stack_allocator.allocate_size size st).2, 8 ∣ n.size := by
  rcases allocate_size_state size st with ⟨heq, _⟩ | ⟨pre, n, post, hst, _, hn, heq⟩
  · rw [heq]
    exact h
  · rw [heq]
    subst hst
    intro m hm
    simp only [List.mem_append] at hm
    rcases hm with (hm | hm) | hm
    · exact h m (by simp [hm])
    · have hn8 : 8 ∣ n.size := h n (by simp)
      by_cases hs : n.size - size ≥ sizeof_block_header + 8
      · rw [found_nodes_split _ _ hs] at hm
        simp only [List.mem_cons, List.mem_singleton, List.not_mem_nil, or_false] at hm
        rcases hm with rfl | rfl
        · exact hsize
        · simp only
          unfold sizeof_block_header at *
          omega
      · rw [found_nodes_whole _ _ (Nat.not_le.mp hs)] at hm
        simp only [List.mem_singleton] at hm
        subst hm
        exact hn8
    · exact h m (by simp [hm])

/-- The claim C12 as stated fails: the fresh `stack_allocator<T, 60>` has one
header of size `60 - 24 = 36`, which is not a multiple of 8. -/
theorem C12_size_not_multiple_of_8 :
    stack_allocator.ctor 60 = [{ addr := 0, data := 24, size := 36 }] ∧
    ¬ ∀ n ∈ stack_allocator.ctor 60, 8 ∣ n.size := by
  refine ⟨by rfl, ?_⟩
  intro h
  have h36 := h { addr := 0, data := 24, size := 36 } (by simp [stack_allocator.ctor]; decide)
  revert h36
  decide

/-- The claim C12, amended: for a `Capacity` that is a multiple of 8, in every
state reachable from a freshly constructed arena by `allocate` and `deallocate`
calls the `size` of every header of the chain is a multiple of 8. -/
theorem C12_size_multiple_of_8_amended (Capacity e : Nat) (st : chain)
    (h8 : 8 ∣ Capacity) (hreach : Reachable Capacity e st) :
    ∀ n ∈ st, 8 ∣ n.size := by
  refine reachable_induction Capacity e (fun st => ∀ n ∈ st, 8 ∣ n.size) ?_ ?_ st hreach
  · intro n hn
    simp only [stack_allocator.ctor, List.mem_singleton] at hn
    subst hn
    simp only
    unfold sizeof_block_header size_modulus
    omega
  · intro st count ih
    exact allocate_size_dvd _ st (request_size_dvd e count) ih

/-- The amended claim C12 on a `stack_allocator<T, 64>` with `sizeof(T) = 8`
after one `allocate(1)`: both headers have size 8. -/
theorem C12_size_multiple_of_8_amended_witness :
    8 ∣ 64 ∧
    Reachable 64 8 (step 8 (stack_allocator.ctor 64) (call.allocate 1)) ∧
    ∀ n ∈ step 8 (stack_allocator.ctor 64) (call.allocate 1), 8 ∣ n.size :=
  ⟨by decide, reachable_step 64 8 _ _ (reachable_ctor 64 8),
    C12_size_multiple_of_8_amended 64 8 _ (by decide)
      (reachable_step 64 8 _ _ (reachable_ctor 64 8))⟩

/-- Every header of the chain is still in the chain after `allocate`, at the
same address and with the same data pointer. -/
theorem allocate_size_keeps_headers (size : Nat) (st : chain) :
    ∀ n ∈ st, ∃ m ∈ (stack_allocator.allocate_size size st).2,
      m.addr = n.addr ∧ m.data = n.data := by
  rcases allocate_size_state size st with ⟨heq, _⟩ | ⟨pre, x, post, hst, _, hx, heq⟩
  · rw [heq]
    intro n hn
    exact ⟨n, hn, rfl, rfl⟩
  · rw [heq]
    subst hst
    intro n hn
    simp only [List.mem_append, List.mem_cons] at hn
    rcases hn with hn | rfl | hn
    · exact ⟨n, by simp [hn], rfl, rfl⟩
    · by_cases hs : n.size - size ≥ sizeof_block_header + 8
      · rw [found_nodes_split _ _ hs]
        exact ⟨{ addr := n.addr, data := n.data, size := size }, by simp, rfl, rfl⟩
      · rw [found_nodes_whole _ _ (Nat.not_le.mp hs)]
        exact ⟨n, by simp, rfl, rfl⟩
    · exact ⟨n, by simp [hn], rfl, rfl⟩

/-- Every header of the chain is still in the chain after any sequence of
calls. -/
theorem run_keeps_headers (e : Nat) (calls : List call) :
    ∀ st : chain, ∀ n ∈ st, ∃ m ∈ run e st calls, m.addr = n.addr ∧ m.data = n.data := by
  induction calls with
  | nil =>
    intro st n hn
    exact ⟨n, hn, rfl, rfl⟩
  | cons c cs ih =>
    intro st n hn
    have hstep : ∃ m ∈ step e st c, m.addr = n.addr ∧ m.data = n.data := by
      cases c with
      | allocate count => exact allocate_size_keeps_headers _ st n hn
      | deallocate ptr count => exact ⟨n, hn, rfl, rfl⟩
    obtain ⟨m, hm, hma, hmd⟩ := hstep
    obtain ⟨k, hk, hka, hkd⟩ := ih (step e st c) m hm
    exact ⟨k, hk, hka.trans hma, hkd.trans hmd⟩

/-- The claim C18: the chain stays sorted by position and connected.  For every
`Capacity ≥ sizeof(block_header)` and every state reachable from a fresh arena,
the data offsets increase strictly along the chain from `head_` on, and every
header of the chain is still in the chain, at the same address, after any
further sequence of `allocate` and `deallocate` calls. -/
theorem C18_sorted_and_connected (Capacity e : Nat) (st : chain)
    (hH : sizeof_block_header ≤ Capacity) (hC : Capacity < size_modulus)
    (hreach : Reachable Capacity e st) :
    st.Pairwise (fun x y => x.data < y.data) ∧
    ∀ calls : List call, ∀ n ∈ st,
      ∃ m ∈ run e st calls, m.addr = n.addr ∧ m.data = n.data :=
  ⟨tiles_sorted st 0 Capacity (reachable_tiles Capacity e hH hC st hreach),
    fun calls => run_keeps_headers e calls st⟩

/-- The claim C18 on a `stack_allocator<T, 64>` with `sizeof(T) = 8` after one
`allocate(1)`. -/
theorem C18_sorted_and_connected_witness :
    sizeof_block_header ≤ 64 ∧ 64 < size_modulus ∧
    Reachable 64 8 (step 8 (stack_allocator.ctor 64) (call.allocate 1)) ∧
    (step 8 (stack_allocator.ctor 64) (call.allocate 1)).Pairwise (fun x y => x.data < y.data) ∧
    ∀ calls : List call, ∀ n ∈ step 8 (stack_allocator.ctor 64) (call.allocate 1),
      ∃ m ∈ run 8 (step 8 (stack_allocator.ctor 64) (call.allocate 1)) calls, m.addr = n.addr ∧ m.data = n.data :=
  ⟨by decide, by decide, reachable_step 64 8 _ _ (reachable_ctor 64 8),
    C18_sorted_and_connected 64 8 (step 8 (stack_allocator.ctor 64) (call.allocate 1)) (by decide) (by decide)
      (reachable_step 64 8 _ _ (reachable_ctor 64 8))⟩

/-- The claim C19: the tiling invariant.  For every
`Capacity ≥ sizeof(block_header)` and every state reachable from a fresh arena,
the headers tile the buffer: the first header is at offset 0, the data of every
header begins `sizeof(block_header)` bytes after the header, every next header
begins at the data plus the size of the one before it, and the data plus the
size of the last header is `Capacity`, so the sum of
`sizeof(block_header) + size` over the chain is `Capacity`.  Every non-null
pointer `p` that `allocate` returns for working size `s` has
`sizeof(block_header) ≤ p` and `p + s ≤ Capacity`. -/
theorem C19_tiling_invariant (Capacity e : Nat) (st : chain)
    (hH : sizeof_block_header ≤ Capacity) (hC : Capacity < size_modulus)
    (hreach : Reachable Capacity e st) :
    tiles 0 Capacity st ∧
    (∃ head rest, st = head :: rest ∧ head.addr = 0) ∧
    (∀ n ∈ st, n.data = n.addr + sizeof_block_header) ∧
    (∀ pre x y post, st = pre ++ x :: y :: post → y.addr = x.data + x.size) ∧
    (∃ front last, st = front ++ [last] ∧ last.data + last.size = Capacity) ∧
    (st.map (fun n => sizeof_block_header + n.size)).sum = Capacity ∧
    ∀ count p, (stack_allocator.allocate e st count).1 = some p →
      sizeof_block_header ≤ p ∧ p + request_size e count ≤ Capacity := by
  have ht := reachable_tiles Capacity e hH hC st hreach
  have hne := reachable_ne_nil Capacity e st hreach
  refine ⟨ht, ?_, ?_, ?_, ?_, ?_, ?_⟩
  · cases st with
    | nil => exact absurd rfl hne
    | cons head rest => exact ⟨head, rest, rfl, ht.1⟩
  · intro n hn
    exact (tiles_bounds st 0 Capacity ht n hn).1
  · intro pre x y post hst
    subst hst
    exact tiles_adjacent pre x y post 0 Capacity ht
  · rcases List.eq_nil_or_concat st with h | ⟨front, last, h⟩
    · exact absurd h hne
    · rw [List.concat_eq_append] at h
      subst h
      exact ⟨front, last, rfl, tiles_last front last 0 Capacity ht⟩
  · have := tiles_sum st 0 Capacity ht
    omega
  · intro count p hp
    unfold stack_allocator.allocate at hp
    rcases allocate_size_state (request_size e count) st with
      ⟨heq, _⟩ | ⟨pre, n, post, hst, _, hn, heq⟩
    · rw [heq] at hp
      cases hp
    · rw [heq] at hp
      simp only [Option.some.injEq] at hp
      subst hp
      have hb := tiles_bounds st 0 Capacity ht n (by simp [hst])
      omega

/-- The claim C19 on a `stack_allocator<T, 64>` with `sizeof(T) = 8` after one
`allocate(1)`. -/
theorem C19_tiling_invariant_witness :
    sizeof_block_header ≤ 64 ∧ 64 < size_modulus ∧
    Reachable 64 8 (step 8 (stack_allocator.ctor 64) (call.allocate 1)) ∧
    tiles 0 64 (step 8 (stack_allocator.ctor 64) (call.allocate 1)) ∧
    (∃ head rest, step 8 (stack_allocator.ctor 64) (call.allocate 1) = head :: rest ∧ head.addr = 0) ∧
    (∀ n ∈ step 8 (stack_allocator.ctor 64) (call.allocate 1), n.data = n.addr + sizeof_block_header) ∧
    (∀ pre x y post, step 8 (stack_allocator.ctor 64) (call.allocate 1) = pre ++ x :: y :: post →
      y.addr = x.data + x.size) ∧
    (∃ front last, step 8 (stack_allocator.ctor 64) (call.allocate 1) = front ++ [last] ∧
      last.data + last.size = 64) ∧
    ((step 8 (stack_allocator.ctor 64) (call.allocate 1)).map (fun n => sizeof_block_header + n.size)).sum = 64 ∧
    ∀ count p, (stack_allocator.allocate 8 (step 8 (stack_allocator.ctor 64) (call.allocate 1)) count).1 = some p →
      sizeof_block_header ≤ p ∧ p + request_size 8 count ≤ 64 :=
  ⟨by decide, by decide, reachable_step 64 8 _ _ (reachable_ctor 64 8),
    C19_tiling_invariant 64 8 (step 8 (stack_allocator.ctor 64) (call.allocate 1)) (by decide) (by decide)
      (reachable_step 64 8 _ _ (reachable_ctor 64 8))⟩

/-! ## Rebinding, the fallback allocator and the heap allocator -/

/-- The claim C13 as stated fails for two different element types: on a
`stack_allocator<unsigned char, 64>`, after `allocate(8)` the chain of the source
has two headers of size 8, and the `stack_allocator<int, 64>` constructed from
it has the single header of size 40 of a fresh arena. -/
theorem C13_rebind_does_not_share :
    (stack_allocator.allocate 1 (stack_allocator.ctor 64) 8).2
      = [{ addr := 0, data := 24, size := 8 }, { addr := 32, data := 56, size := 8 }] ∧
    stack_allocator.ctor_from 64 "int" "unsigned char"
        (stack_allocator.allocate 1 (stack_allocator.ctor 64) 8).2
      = [{ addr := 0, data := 24, size := 40 }] ∧
    stack_allocator.ctor_from 64 "int" "unsigned char"
        (stack_allocator.allocate 1 (stack_allocator.ctor 64) 8).2
      ≠ (stack_allocator.allocate 1 (stack_allocator.ctor 64) 8).2 := by
  refine ⟨by rfl, by decide, by decide⟩

/-- The claim C13, amended: constructing a `stack_allocator<T, Capacity>` from a
`stack_allocator<U, Capacity>` with `U = T` yields an allocator whose chain is
the chain of the source at the time of the construction; with `U ≠ T` it yields
an allocator in the state of a freshly constructed arena, whatever the state of
the source, and every `allocate` on it behaves as on a fresh arena. -/
theorem C13_rebind_by_type_amended {Ty : Type} [DecidableEq Ty] (Capacity e count : Nat)
    (T U : Ty) (other : chain) :
    (U = T → stack_allocator.ctor_from Capacity T U other = other) ∧
    (U ≠ T →
      stack_allocator.ctor_from Capacity T U other = stack_allocator.ctor Capacity ∧
      stack_allocator.allocate e (stack_allocator.ctor_from Capacity T U other) count
        = stack_allocator.allocate e (stack_allocator.ctor Capacity) count) := by
  constructor
  · intro h
    simp [stack_allocator.ctor_from, h]
  · intro h
    simp [stack_allocator.ctor_from, h]

/-- The amended claim C13 on a `stack_allocator<unsigned char, 64>` after
`allocate(8)`: a `stack_allocator<unsigned char, 64>` constructed from it has its
two headers of size 8, and a `stack_allocator<int, 64>` constructed from it has
the single header of size 40 and answers `allocate(1)` as a fresh arena does. -/
theorem C13_rebind_by_type_amended_witness :
    ("unsigned char" = "unsigned char" ∧
      stack_allocator.ctor_from 64 "unsigned char" "unsigned char"
          (stack_allocator.allocate 1 (stack_allocator.ctor 64) 8).2
        = (stack_allocator.allocate 1 (stack_allocator.ctor 64) 8).2) ∧
    ("unsigned char" ≠ "int" ∧
      stack_allocator.ctor_from 64 "int" "unsigned char"
          (stack_allocator.allocate 1 (stack_allocator.ctor 64) 8).2
        = stack_allocator.ctor 64 ∧
      stack_allocator.allocate 4
          (stack_allocator.ctor_from 64 "int" "unsigned char"
            (stack_allocator.allocate 1 (stack_allocator.ctor 64) 8).2) 1
        = stack_allocator.allocate 4 (stack_allocator.ctor 64) 1) :=
  ⟨⟨rfl, (C13_rebind_by_type_amended 64 1 8 "unsigned char" "unsigned char"
      (stack_allocator.allocate 1 (stack_allocator.ctor 64) 8).2).1 rfl⟩,
   ⟨by decide, (C13_rebind_by_type_amended 64 4 1 "int" "unsigned char"
      (stack_allocator.allocate 1 (stack_allocator.ctor 64) 8).2).2 (by decide)⟩⟩

/-- The claim C14 at its failing input: a
`fallback_allocator<T, stack_allocator<T, 64>, stack_allocator<T, 64>>` with
`sizeof(T) = 8` and both members fresh.  `allocate(1)` on the primary alone
returns offset 24, and `allocate(1)` on the fallback allocator returns `nullptr`
and leaves both members as they were. -/
theorem C14_fallback_allocate_returns_null :
    (stack_allocator.allocate 8 (stack_allocator.ctor 64) 1).1 = some 24 ∧
    (fallback_allocator.allocate
        ({ primary_allocator := stack_allocator.ctor 64,
           fallback_allocator := stack_allocator.ctor 64 } :
          fallback_allocator chain chain) 1).1 = none ∧
    (fallback_allocator.allocate
        ({ primary_allocator := stack_allocator.ctor 64,
           fallback_allocator := stack_allocator.ctor 64 } :
          fallback_allocator chain chain) 1).2
      = { primary_allocator := stack_allocator.ctor 64,
          fallback_allocator := stack_allocator.ctor 64 } := by
  refine ⟨by rfl, rfl, rfl⟩

/-- The claim C15: `heap_allocator::max_size()` is the largest count whose byte
size does not wrap.  For every element size `e ≥ 1`, `max_size()` is
`(2 ^ 64 - 1) / e`, and for every count, `count * e ≤ 2 ^ 64 - 1` exactly when
`count ≤ max_size()`. -/
theorem C15_heap_max_size (e count : Nat) (he : 1 ≤ e) :
    heap_allocator.max_size e = (2 ^ 64 - 1) / e ∧
    (count * e ≤ 2 ^ 64 - 1 ↔ count ≤ heap_allocator.max_size e) := by
  refine ⟨rfl, ?_⟩
  unfold heap_allocator.max_size size_modulus
  exact (Nat.le_div_iff_mul_le he).symm

/-- The claim C15 for a 4-byte element and 100 elements. -/
theorem C15_heap_max_size_witness :
    1 ≤ 4 ∧
    heap_allocator.max_size 4 = (2 ^ 64 - 1) / 4 ∧
    (100 * 4 ≤ 2 ^ 64 - 1 ↔ 100 ≤ heap_allocator.max_size 4) :=
  ⟨by decide, C15_heap_max_size 4 100 (by decide)⟩

end Alloc
